import Mathlib

/-!
Verification of the core of a tree-walking interpreter written in Rust
(scanner, recursive-descent parser, environment chain, evaluator).

Modelling conventions, fixed once for the whole development:

* Rust `f64` number literals are modelled as `Rat`.  Every claim settled
  here is independent of IEEE-754 rounding: the numeric values involved
  are small integers, and the code paths under study branch only on
  constructor tags and on equality with zero.
* Rust `HashMap<String, Value>` is modelled as an association list whose
  operations (`contains_key`, `insert`, `entry(..).or_insert(..)`)
  mirror the HashMap API observationally; iteration order is never used
  by the code under study.
* The shared, interiorly mutable environment chain
  (`Rc<Environment>` with `RefCell` maps) is modelled as a list of
  scopes, innermost first: the interpreter holds a single chain,
  entering a block conses an empty scope and leaving it drops the head,
  exactly matching the pointer swaps in `interpreter.rs`.  No closures
  exist in this interpreter, so no two distinct chains are ever alive at
  the same time and the list model is observationally faithful.
* Rust `char::is_alphabetic` / `is_alphanumeric` are Unicode predicates;
  they are modelled by their ASCII restrictions `Char.isAlpha` /
  `Char.isAlphanum`.  All inputs appearing in the claims are ASCII.
* Fallible or possibly diverging Rust code becomes `Except` / fuelled
  recursion returning `Option` (`none` = fuel exhausted; the fuel passed
  by the top-level drivers always suffices for the concrete inputs
  used).
* `scanner.rs` declares `TokenType` without a `Break` variant and
  `syntax.rs` declares `Expr` without `Call` and `Stmt` without `Break`,
  yet `parser.rs` matches on `TokenType::Break` and builds `Expr::Call`
  and `Stmt::Break`, and `interpreter.rs` executes `Stmt::Break`; the
  crate as given does not compile.  The embedding keeps `TokenType`
  exactly as `scanner.rs` declares it and extends `Expr`/`Stmt` with the
  `call`/`brk` constructors that `parser.rs` and `interpreter.rs`
  require.
* A single quote character is written `sq` when it occurs inside an
  error-message string.
-/

namespace LoxRust

/-- The single quote character, used inside runtime error messages. -/
def sq : String := String.singleton (Char.ofNat 39)

/-- `TokenType` from `scanner.rs`, verbatim: note that there is no
`Break` variant (keyword constructors carry a `kw` prefix because most
of the Rust names are Lean keywords). -/
inductive TokenType where
  | leftParen | rightParen | leftBrace | rightBrace
  | comma | dot | minus | plus | semicolon | slash | star
  | bang | bangEqual
  | equal | equalEqual
  | greater | greaterEqual
  | less | lessEqual
  | identifier | string | number
  | kwAnd | kwClass | kwElse | kwFalse | kwFun | kwFor | kwIf | kwNil | kwOr
  | kwPrint | kwReturn | kwSuper | kwThis | kwTrue | kwVar | kwWhile
  | eof
  deriving DecidableEq, Repr

/-- `Literal` from `scanner.rs` (`Identifier`, `Str`, `Number`, `Bool`,
`Nil`); `f64` modelled as `Rat`. -/
inductive Literal where
  | idr (text : String)
  | str (text : String)
  | num (value : Rat)
  | bool (value : Bool)
  | nil
  deriving DecidableEq, Repr

/-- `Token` from `scanner.rs`: kind, exact lexeme, optional literal, and
the scanner's `line` counter (an `i32`, modelled as `Int`). -/
structure Token where
  tokenType : TokenType
  lexeme : String
  literal : Option Literal
  line : Int
  deriving DecidableEq, Repr

/-- Runtime `Value` from `interpreter.rs`: same spine as `Literal`. -/
inductive Value where
  | idr (text : String)
  | str (text : String)
  | num (value : Rat)
  | bool (value : Bool)
  | nil
  deriving DecidableEq, Repr

/-- One scope: the `values: RefCell<HashMap<String, Value>>` map of an
`Environment` node, as an association list. -/
abbrev Scope := List (String × Value)

/-- `HashMap::contains_key`. -/
def Scope.containsKey (s : Scope) (name : String) : Bool :=
  (s.lookup name).isSome

/-- `HashMap::insert`: overwrite the binding if present, else add it. -/
def Scope.insertVal (s : Scope) (name : String) (v : Value) : Scope :=
  (name, v) :: s.eraseP (fun p => p.1 == name)

/-- `HashMap::entry(k).or_insert(v)`: insert only when the key is
vacant; an occupied entry is left untouched. -/
def Scope.orInsert (s : Scope) (name : String) (v : Value) : Scope :=
  if s.containsKey name then s else (name, v) :: s

/-- The environment chain of `environment.rs`: scopes innermost first;
`enclosing` is the tail, the global scope is the last element. -/
abbrev Env := List Scope

namespace Environment

/-- `Environment::get`: the binding from the nearest enclosing scope
that defines the name, walking toward the root. -/
def get : Env → String → Option Value
  | [], _ => none
  | s :: rest, name =>
    match s.lookup name with
    | some v => some v
    | none => get rest name

/-- `Environment::define`: insert into the current (innermost) scope. -/
def define : Env → String → Value → Env
  | [], _, _ => []
  | s :: rest, name, v => s.insertVal name v :: rest

/-- `Environment::assign`, verbatim from `environment.rs`: if the
innermost scope `contains_key`, it runs
`values.entry(name).or_insert(value)` and returns `Ok(value)`;
otherwise it recurses into `enclosing`, and errors at the root.  The
returned chain is the (possibly) updated one. -/
def assign : Env → String → Value → Env × Except String Value
  | [], name, _ =>
    ([], .error ("Variable " ++ sq ++ name ++ sq ++ " does not exist."))
  | s :: rest, name, v =>
    if s.containsKey name then
      (s.orInsert name v :: rest, .ok v)
    else
      let r := assign rest name v
      (s :: r.1, r.2)

end Environment

/-- `or_insert` on an occupied entry changes nothing. -/
theorem Scope.orInsert_of_contains (s : Scope) (name : String) (v : Value)
    (h : s.containsKey name = true) : s.orInsert name v = s := by
  simp [Scope.orInsert, h]

/-- `assign` never changes the chain: on the success path the innermost
defining scope is rewritten with `or_insert`, which is the identity on
an occupied entry, and the failure path touches nothing. -/
theorem Environment.assign_env_eq (env : Env) (name : String) (v : Value) :
    (Environment.assign env name v).1 = env := by
  induction env with
  | nil => rfl
  | cons s rest ih =>
    by_cases h : s.containsKey name
    · simp [Environment.assign, h, Scope.orInsert_of_contains s name v h]
    · simp [Environment.assign, h, ih]

/-- C1. The claim says `assign` overwrites the binding in the nearest
defining scope so that a subsequent `get` returns the new value.  The
code instead runs `entry(name).or_insert(value)` after checking
`contains_key`, and `or_insert` never overwrites an occupied entry: at
the chain `[{x := Number 1}]`, `assign x (Number 2)` answers
`Ok(Number 2)` while leaving `x` bound to `Number 1`, which `get`
then returns. -/
theorem assign_or_insert_noop :
    Environment.assign [[("x", Value.num 1)]] "x" (Value.num 2)
      = ([[("x", Value.num 1)]], Except.ok (Value.num 2))
    ∧ Environment.get [[("x", Value.num 1)]] "x" = some (Value.num 1) := by
  constructor
  · rfl
  · rfl

/-! ## Scanner (`scanner.rs`)

The scanner state carries, besides the fields of the Rust struct, a
ghost list `emits` recording the value of `current` at each token
emission; it influences nothing and exists only so that theorems can
speak about the position at which a token was produced. -/

/-- Scanner state (`source` is passed separately since it never
changes). -/
structure ScanState where
  tokens : List Token
  start : Nat
  current : Nat
  line : Int
  isError : Bool
  emits : List Nat
  deriving Repr

namespace Scanner

/-- The keyword table built in `Scanner::new`.  Sixteen entries; the
lexeme `break` is NOT among them. -/
def keywords : List (String × TokenType) :=
  [ ("and", .kwAnd), ("class", .kwClass), ("else", .kwElse),
    ("false", .kwFalse), ("fun", .kwFun), ("for", .kwFor),
    ("if", .kwIf), ("nil", .kwNil), ("or", .kwOr),
    ("print", .kwPrint), ("return", .kwReturn), ("super", .kwSuper),
    ("this", .kwThis), ("true", .kwTrue), ("var", .kwVar),
    ("while", .kwWhile) ]

/-- The NUL character returned by `peek`/`peek_next` at end of input. -/
def nul : Char := Char.ofNat 0

/-- `Scanner::is_at_end`. -/
def isAtEnd (source : List Char) (s : ScanState) : Bool :=
  source.length ≤ s.current

/-- `Scanner::advance` (callers guarantee the index is in bounds, as in
the Rust code, where an out-of-bounds index would panic). -/
def advance (source : List Char) (s : ScanState) : Char × ScanState :=
  (source.getD s.current nul, { s with current := s.current + 1 })

/-- The slice `source[a..b]` as a string. -/
def slice (source : List Char) (a b : Nat) : String :=
  String.mk ((source.drop a).take (b - a))

/-- `Scanner::add_token_literal`: lexeme is `source[start..current]`;
the token is stamped with the current `line`.  Also records `current`
in the ghost `emits` list. -/
def addTokenLit (source : List Char) (tt : TokenType) (lit : Option Literal)
    (s : ScanState) : ScanState :=
  { s with
    tokens := s.tokens ++ [⟨tt, slice source s.start s.current, lit, s.line⟩],
    emits := s.emits ++ [s.current] }

/-- `Scanner::add_token`. -/
def addToken (source : List Char) (tt : TokenType) (s : ScanState) : ScanState :=
  addTokenLit source tt none s

/-- `Scanner::check_next`. -/
def checkNext (source : List Char) (expected : Char) (s : ScanState) :
    Bool × ScanState :=
  if isAtEnd source s then (false, s)
  else if source.getD s.current nul ≠ expected then (false, s)
  else (true, { s with current := s.current + 1 })

/-- `Scanner::peek`. -/
def peek (source : List Char) (s : ScanState) : Char :=
  if isAtEnd source s then nul else source.getD s.current nul

/-- `Scanner::peek_next`. -/
def peekNext (source : List Char) (s : ScanState) : Char :=
  if source.length ≤ s.current + 1 then nul else source.getD (s.current + 1) nul

/-- `Scanner::report_error`: prints (ignored here) and sets the error
flag. -/
def reportError (_msg : String) (s : ScanState) : ScanState :=
  { s with isError := true }

/-- The `//`-comment loop: `while peek() != '\n' and not at end,
advance`. -/
def commentLoop (source : List Char) : Nat → ScanState → ScanState
  | 0, s => s
  | fuel + 1, s =>
    if peek source s ≠ '\n' ∧ ¬ isAtEnd source s then
      commentLoop source fuel (advance source s).2
    else s

/-- The body loop of `Scanner::scan_string`: consume until a closing
quote or end of input, bumping `line` at each newline.  (The loop
consumes one character of the remaining input per iteration; it
recurses on the length of that remainder.) -/
def stringBody (source : List Char) (s : ScanState) : ScanState :=
  if h : peek source s ≠ '"' ∧ ¬ isAtEnd source s then
    let s1 := if peek source s = '\n' then { s with line := s.line + 1 } else s
    stringBody source (advance source s1).2
  else s
  termination_by source.length - s.current
  decreasing_by
    have hlt : s.current < source.length := by
      have := h.2
      simp only [isAtEnd, decide_eq_true_eq, Bool.not_eq_true] at this
      omega
    simp only [advance]
    split <;> simp <;> omega

/-- `Scanner::scan_string` after the opening quote was consumed. -/
def scanString (source : List Char) (s : ScanState) : ScanState :=
  let s1 := stringBody source s
  if isAtEnd source s1 then reportError "unterminated string." s1
  else
    let s2 := (advance source s1).2
    addTokenLit source .string
      (some (.str (slice source (s2.start + 1) (s2.current - 1)))) s2

/-- A digit run: `while peek().is_digit(10), advance`. -/
def digitRun (source : List Char) : Nat → ScanState → ScanState
  | 0, s => s
  | fuel + 1, s =>
    if (peek source s).isDigit then digitRun source fuel (advance source s).2
    else s

/-- Digits to a natural number. -/
def natOfDigits (cs : List Char) : Nat :=
  cs.foldl (fun a c => a * 10 + (c.toNat - 48)) 0

/-- The value of a scanned number lexeme (digits, optionally a dot and
more digits).  Models `str::parse::<f64>` exactly on the lexemes the
scanner produces; no claim depends on floating-point rounding. -/
def parseDecimal (cs : List Char) : Rat :=
  let intPart := cs.takeWhile (· ≠ '.')
  match cs.dropWhile (· ≠ '.') with
  | [] => (natOfDigits intPart : Rat)
  | _ :: frac =>
    (natOfDigits intPart : Rat) + (natOfDigits frac : Rat) / ((10 : Rat) ^ frac.length)

/-- `Scanner::scan_number`. -/
def scanNumber (source : List Char) (fuel : Nat) (s : ScanState) : ScanState :=
  let s1 := digitRun source fuel s
  let s2 :=
    if peek source s1 = '.' ∧ (peekNext source s1).isDigit then
      digitRun source fuel (advance source s1).2
    else s1
  addTokenLit source .number
    (some (.num (parseDecimal ((source.drop s2.start).take (s2.current - s2.start))))) s2

/-- An alphanumeric run: `while peek().is_alphanumeric(), advance`.
Note the continuation predicate does NOT accept underscores. -/
def alnumRun (source : List Char) : Nat → ScanState → ScanState
  | 0, s => s
  | fuel + 1, s =>
    if (peek source s).isAlphanum then alnumRun source fuel (advance source s).2
    else s

/-- `Scanner::scan_identifier`: extend through alphanumerics, then
consult the keyword table; on a miss emit `Identifier` with the lexeme
as literal. -/
def scanIdentifier (source : List Char) (fuel : Nat) (s : ScanState) : ScanState :=
  let s1 := alnumRun source fuel s
  let text := slice source s1.start s1.current
  match keywords.lookup text with
  | some tt => addToken source tt s1
  | none => addTokenLit source .identifier (some (.idr text)) s1

/-- The dispatch of `Scanner::scan_token` on the consumed character
`c` (split out of `scanToken` so proofs can case on the branches
directly; `s` is the state after the initial `advance`). -/
def scanTokenDispatch (source : List Char) (fuel : Nat) (c : Char) (s : ScanState) : ScanState :=
  if c = '(' then addToken source .leftParen s
  else if c = ')' then addToken source .rightParen s
  else if c = '{' then addToken source .leftBrace s
  else if c = '}' then addToken source .rightBrace s
  else if c = ',' then addToken source .comma s
  else if c = '.' then addToken source .dot s
  else if c = '-' then addToken source .minus s
  else if c = '+' then addToken source .plus s
  else if c = ';' then addToken source .semicolon s
  else if c = '*' then addToken source .star s
  else if c = '!' then
    let q := checkNext source '=' s
    if q.1 then addToken source .bangEqual q.2 else addToken source .bang q.2
  else if c = '=' then
    let q := checkNext source '=' s
    if q.1 then addToken source .equalEqual q.2 else addToken source .equal q.2
  else if c = '<' then
    let q := checkNext source '=' s
    if q.1 then addToken source .lessEqual q.2 else addToken source .less q.2
  else if c = '>' then
    let q := checkNext source '=' s
    if q.1 then addToken source .greaterEqual q.2 else addToken source .greater q.2
  else if c = '/' then
    let q := checkNext source '/' s
    if q.1 then commentLoop source fuel q.2 else addToken source .slash q.2
  else if c = ' ' ∨ c = '\r' ∨ c = '\t' then s
  else if c = '\n' then { s with line := s.line + 1 }
  else if c = '"' then scanString source s
  else if c.isDigit then scanNumber source fuel s
  else if c.isAlpha ∨ c = '_' then scanIdentifier source fuel s
  else reportError "unknown character." s

/-- `Scanner::scan_token`: consume one character and dispatch. -/
def scanToken (source : List Char) (fuel : Nat) (s : ScanState) : ScanState :=
  scanTokenDispatch source fuel (advance source s).1 (advance source s).2

/-- The main loop of `Scanner::scan_tokens`: while not at end, set
`start := current` and scan one token. -/
def scanLoop (source : List Char) : Nat → ScanState → ScanState
  | 0, s => s
  | fuel + 1, s =>
    if isAtEnd source s then s
    else scanLoop source fuel (scanToken source fuel { s with start := s.current })

/-- The initial scanner state of `Scanner::new`: note `line` starts at
`0`. -/
def initState : ScanState := ⟨[], 0, 0, 0, false, []⟩

/-- The full scanner run, returning the final state: the main loop
followed by the trailing `add_token(EOF)` (whose lexeme is
`source[start..current]` for the unchanged `start`, exactly as in the
Rust code). -/
def scanFinal (str : String) : ScanState :=
  let source := str.data
  addToken source .eof (scanLoop source (source.length + 1) initState)

end Scanner

/-- Top-level `scan_tokens`: `Ok(tokens)` unless the error flag was
set. -/
def scan_tokens (str : String) : Except Unit (List Token) :=
  let s := Scanner.scanFinal str
  if s.isError then .error () else .ok s.tokens

/-- C2. The keyword table of `Scanner::new` has no entry for `break`
(and `TokenType` has no `Break` variant at all), so the input `break`
scans as an `Identifier` token, not as a keyword token; the parser arm
`match_tokens(&[TokenType::Break])` therefore can never fire and a
`break` statement is not accepted. -/
theorem scan_break_is_identifier :
    Scanner.keywords.lookup "break" = none
    ∧ scan_tokens "break"
        = .ok [⟨.identifier, "break", some (.idr "break"), 0⟩,
               ⟨.eof, "break", none, 0⟩] := by
  constructor
  · rfl
  · rfl

/-- C10. Identifier continuation accepts only alphanumerics
(`is_alphanumeric`), while `_` is accepted only as a starting character
by the dispatch in `scan_token`: the input `foo_bar` therefore yields
the two identifiers `foo` and `_bar`, not one token `foo_bar`. -/
theorem identifier_stops_at_underscore :
    scan_tokens "foo_bar"
      = .ok [⟨.identifier, "foo", some (.idr "foo"), 0⟩,
             ⟨.identifier, "_bar", some (.idr "_bar"), 0⟩,
             ⟨.eof, "_bar", none, 0⟩] := by
  rfl

/-- C6, counterexample. The claim says the `line` field is the
1-indexed line number of the first character, so a token on the first
line would carry `line = 1`; `Scanner::new` initialises `line: 0` and
nothing bumps it before the first newline, so the `+` token of the
one-line source `+` carries `line = 0`, not `1`. -/
theorem first_line_token_line_zero :
    scan_tokens "+" = .ok [⟨.plus, "+", none, 0⟩, ⟨.eof, "+", none, 0⟩]
    ∧ (0 : Int) ≠ 1 := by
  exact ⟨rfl, by decide⟩

/-! ## Evaluator (`interpreter.rs`)

`Expr` and `Stmt` follow `syntax.rs`, extended with the `call` and
`brk` constructors that `parser.rs` produces and `interpreter.rs`
executes (see the header note).  `evaluate` threads the environment
chain explicitly; `execute` additionally takes fuel because `While`
may diverge, and returns `none` on fuel exhaustion. -/

/-- `Expr` (`syntax.rs`, plus `Call` which `parser.rs` builds). -/
inductive Expr where
  | assign (name : Token) (value : Expr)
  | binary (left : Expr) (operator : Token) (right : Expr)
  | call (callee : Expr) (paren : Token) (arguments : List Expr)
  | grouping (expression : Expr)
  | literal (value : Literal)
  | logical (left : Expr) (operator : Token) (right : Expr)
  | unary (operator : Token) (right : Expr)
  | variable (name : Token)
  deriving Repr

/-- `Stmt` (`syntax.rs`, plus `Break` which `parser.rs` builds and
`interpreter.rs` executes; named `brk` here). -/
inductive Stmt where
  | expression (expression : Expr)
  | print (expression : Expr)
  | varDecl (name : Token) (initializer : Option Expr)
  | block (statements : List Stmt)
  | ifS (condition : Expr) (thenBranch : Stmt) (elseBranch : Option Stmt)
  | whileS (condition : Expr) (body : Stmt)
  | brk
  deriving Repr

namespace Interpreter

/-- `Interpreter::generate_error`. -/
def generateError (line : Int) (message : String) : String :=
  "[line " ++ toString line ++ "] Error: " ++ message

/-- `is_truthy`: only `Bool(false)` and `Nil` are falsy. -/
def isTruthy : Value → Bool
  | .bool b => b
  | .nil => false
  | _ => true

/-- `Interpreter::literal_to_value`. -/
def literalToValue : Literal → Value
  | .idr t => .idr t
  | .str t => .str t
  | .num n => .num n
  | .bool b => .bool b
  | .nil => .nil

/-- `Interpreter::is_equal`: same-tag values compare componentwise;
any cross-tag pair falls to the catch-all arm returning `None`. -/
def isEqual : Value → Value → Option Bool
  | .idr a, .idr b => some (a == b)
  | .str a, .str b => some (a == b)
  | .num a, .num b => some (a == b)
  | .bool a, .bool b => some (a == b)
  | .nil, .nil => some true
  | _, _ => none

/-- Error message of the binary arms: built exactly like the Rust
`format!` strings, e.g. `cannot apply '-' on non-numbers.`. -/
def opMsg (op : String) (rest : String) : String :=
  sq ++ op ++ sq ++ rest

/-- `Interpreter::evaluate`.  Returns the updated chain and the
result; every arm mirrors the corresponding `match` arm of the Rust
code.  The `call` arm is a modelling artifact: `syntax.rs` declares no
`Call` constructor and the Rust `match` in `interpreter.rs` has no arm
for it, so the value returned here is arbitrary; theorems that
quantify over expressions quarantine it with an `Expr.noCall`
hypothesis. -/
def evaluate : Expr → Env → Env × Except String Value
  | .literal v, env => (env, .ok (literalToValue v))
  | .grouping e, env => evaluate e env
  | .variable name, env =>
    match Environment.get env name.lexeme with
    | some v => (env, .ok v)
    | none =>
      (env, .error ("Variable " ++ sq ++ name.lexeme ++ sq ++ " is undefined."))
  | .assign name value, env =>
    match evaluate value env with
    | (env1, .error e) => (env1, .error e)
    | (env1, .ok v) => Environment.assign env1 name.lexeme v
  | .logical left operator right, env =>
    match evaluate left env with
    | (env1, .error e) => (env1, .error e)
    | (env1, .ok l) =>
      if operator.tokenType = .kwOr then
        if isTruthy l then (env1, .ok l) else evaluate right env1
      else
        if ¬ isTruthy l then (env1, .ok l) else evaluate right env1
  | .unary operator right, env =>
    match evaluate right env with
    | (env1, .error e) => (env1, .error e)
    | (env1, .ok r) =>
      match operator.tokenType with
      | .minus =>
        match r with
        | .num n => (env1, .ok (.num (-n)))
        | _ =>
          (env1, .error (generateError operator.line
            ("cannot apply " ++ sq ++ "-" ++ sq ++ " operator on a non-number.")))
      | .bang =>
        match r with
        | .bool b => (env1, .ok (.bool (!b)))
        | _ =>
          (env1, .error (generateError operator.line
            ("cannot apply " ++ sq ++ "!" ++ sq ++ " operator on a non-number.")))
      | _ =>
        (env1, .error (generateError operator.line
          ("unary operator must be " ++ sq ++ "-" ++ sq ++ " or " ++ sq ++ "!" ++ sq ++ ".")))
  | .binary left operator right, env =>
    match evaluate left env with
    | (env1, .error e) => (env1, .error e)
    | (env1, .ok l) =>
      match evaluate right env1 with
      | (env2, .error e) => (env2, .error e)
      | (env2, .ok r) =>
        match operator.tokenType with
        | .minus =>
          match l, r with
          | .num a, .num b => (env2, .ok (.num (a - b)))
          | _, _ =>
            (env2, .error (generateError operator.line
              ("cannot apply " ++ sq ++ "-" ++ sq ++ " on non-numbers.")))
        | .plus =>
          match l, r with
          | .num a, .num b => (env2, .ok (.num (a + b)))
          | .str a, .str b => (env2, .ok (.str (a ++ b)))
          | _, _ =>
            (env2, .error (generateError operator.line
              (opMsg "+" " operator must be applied on numbers or strings.")))
        | .slash =>
          match l, r with
          | .num a, .num b =>
            if b = 0 then
              (env2, .error (generateError operator.line "cannot divide by 0."))
            else (env2, .ok (.num (a / b)))
          | _, _ =>
            (env2, .error (generateError operator.line
              (opMsg "/" " operator must be applied on numbers.")))
        | .star =>
          match l, r with
          | .num a, .num b => (env2, .ok (.num (a * b)))
          | _, _ =>
            (env2, .error (generateError operator.line
              (opMsg "*" " operator must be applied on numbers.")))
        | .greater =>
          match l, r with
          | .num a, .num b => (env2, .ok (.bool (b < a)))
          | _, _ =>
            (env2, .error (generateError operator.line
              (opMsg ">" " operator must be applied on numbers.")))
        | .greaterEqual =>
          match l, r with
          | .num a, .num b => (env2, .ok (.bool (b ≤ a)))
          | _, _ =>
            (env2, .error (generateError operator.line
              (opMsg ">=" " operator must be applied on numbers.")))
        | .less =>
          match l, r with
          | .num a, .num b => (env2, .ok (.bool (a < b)))
          | _, _ =>
            (env2, .error (generateError operator.line
              (opMsg "<" " operator must be applied on numbers.")))
        | .lessEqual =>
          match l, r with
          | .num a, .num b => (env2, .ok (.bool (a ≤ b)))
          | _, _ =>
            (env2, .error (generateError operator.line
              (opMsg "<=" " operator must be applied on numbers.")))
        | .bangEqual =>
          match isEqual l r with
          | some result => (env2, .ok (.bool (!result)))
          | none =>
            (env2, .error (generateError operator.line
              (opMsg "!=" " operator must be applied on the same types.")))
        | .equalEqual =>
          match isEqual l r with
          | some result => (env2, .ok (.bool result))
          | none =>
            (env2, .error (generateError operator.line
              (opMsg "==" " operator must be applied on the same types.")))
        | _ =>
          (env2, .error (generateError operator.line
            "unknown token found while parsing binary expression."))
  | .call _ _ _, env => (env, .ok .nil)

mutual

/-- `Interpreter::execute`.  REPL/stdout printing is irrelevant to the
claims and dropped; everything else mirrors the Rust arms.  Fuel
decreases on every nested execution; `none` means fuel ran out. -/
def execute : Nat → Stmt → Env → Option (Env × Except String Unit)
  | 0, _, _ => none
  | _ + 1, .expression e, env =>
    match evaluate e env with
    | (env1, .ok _) => some (env1, .ok ())
    | (env1, .error m) => some (env1, .error m)
  | _ + 1, .print e, env =>
    match evaluate e env with
    | (env1, .ok _) => some (env1, .ok ())
    | (env1, .error m) => some (env1, .error m)
  | _ + 1, .varDecl name init, env =>
    match init with
    | some e =>
      match evaluate e env with
      | (env1, .ok v) => some (Environment.define env1 name.lexeme v, .ok ())
      | (env1, .error m) => some (env1, .error m)
    | none => some (env, .ok ())
  | fuel + 1, .block stmts, env => blockLoop fuel stmts ([] :: env)
  | fuel + 1, .ifS cond thenB elseB, env =>
    match evaluate cond env with
    | (env1, .error m) => some (env1, .error m)
    | (env1, .ok v) =>
      if isTruthy v then execute fuel thenB env1
      else if elseB.isSome then
        match elseB with
        | some st => execute fuel st env1
        | none => some (env1, .error "This can literally never hit.")
      else some (env1, .ok ())
  | fuel + 1, .whileS cond body, env => whileLoop fuel cond body env
  | _ + 1, .brk, env => some (env, .error "break")

/-- The statement loop of the `Stmt::Block` arm, including the pop of
the environment on both the error path and the normal path (the
`None`-enclosing branches mirror the Rust early returns). -/
def blockLoop : Nat → List Stmt → Env → Option (Env × Except String Unit)
  | _, [], env =>
    match env with
    | [] => some ([], .error "Enclosing environment not found.")
    | _ :: rest => some (rest, .ok ())
  | 0, _ :: _, _ => none
  | fuel + 1, stmt :: stmts, env =>
    match execute fuel stmt env with
    | none => none
    | some (env1, .ok _) => blockLoop fuel stmts env1
    | some (env1, .error e) =>
      match env1 with
      | [] => some ([], .error ("Enclosing environment not found." ++ "\n" ++ e))
      | _ :: rest => some (rest, .error e)

/-- The `Stmt::While` arm: re-evaluate the condition each iteration;
an `Err` from the body equal to the string `break` becomes a normal
`Ok` exit, any other `Err` propagates. -/
def whileLoop : Nat → Expr → Stmt → Env → Option (Env × Except String Unit)
  | 0, _, _, _ => none
  | fuel + 1, cond, body, env =>
    match evaluate cond env with
    | (env1, .error e) => some (env1, .error e)
    | (env1, .ok v) =>
      if isTruthy v then
        match execute fuel body env1 with
        | none => none
        | some (env2, .ok _) => whileLoop fuel cond body env2
        | some (env2, .error e) =>
          if e = "break" then some (env2, .ok ()) else some (env2, .error e)
      else some (env1, .ok ())

end

end Interpreter

/-- Expression evaluation never changes the environment chain: the
only mutating subterm is `Expr::Assign`, and `Environment::assign`
leaves the chain untouched (`assign_env_eq`). -/
theorem evaluate_env_eq : ∀ (e : Expr) (env : Env),
    (Interpreter.evaluate e env).1 = env
  | .assign name value, env => by
    simp only [Interpreter.evaluate]
    split
    · next env1 er heq =>
      have h := evaluate_env_eq value env; rw [heq] at h; exact h
    · next env1 v heq =>
      have h := evaluate_env_eq value env; rw [heq] at h
      rw [Environment.assign_env_eq]; exact h
  | .binary left operator right, env => by
    simp only [Interpreter.evaluate]
    split
    · next env1 er heq =>
      have h := evaluate_env_eq left env; rw [heq] at h; exact h
    · next env1 l heq =>
      have h1 := evaluate_env_eq left env; rw [heq] at h1
      split
      · next env2 er heq2 =>
        have h2 := evaluate_env_eq right env1; rw [heq2] at h2; exact h2.trans h1
      · next env2 r heq2 =>
        have h2 := evaluate_env_eq right env1; rw [heq2] at h2
        have h3 : env2 = env := h2.trans h1
        subst h3
        repeat' split
        all_goals rfl
  | .call callee paren arguments, env => rfl
  | .grouping inner, env => evaluate_env_eq inner env
  | .literal v, env => rfl
  | .logical left operator right, env => by
    simp only [Interpreter.evaluate]
    split
    · next env1 er heq =>
      have h := evaluate_env_eq left env; rw [heq] at h; exact h
    · next env1 l heq =>
      have h1 := evaluate_env_eq left env; rw [heq] at h1
      split
      · split
        · exact h1
        · exact (evaluate_env_eq right env1).trans h1
      · split
        · exact h1
        · exact (evaluate_env_eq right env1).trans h1
  | .unary operator right, env => by
    simp only [Interpreter.evaluate]
    split
    · next env1 er heq =>
      have h := evaluate_env_eq right env; rw [heq] at h; exact h
    · next env1 r heq =>
      have h1 := evaluate_env_eq right env; rw [heq] at h1
      subst h1
      repeat' split
      all_goals rfl
  | .variable name, env => by
    simp only [Interpreter.evaluate]
    split <;> rfl

/-- Constructor tag of a literal, used to state cross-tag claims. -/
def Literal.tag : Literal → Nat
  | .idr _ => 0
  | .str _ => 1
  | .num _ => 2
  | .bool _ => 3
  | .nil => 4

/-- `is_equal` falls through to its `(_, _) => None` arm exactly on
cross-tag pairs. -/
theorem isEqual_eq_none_of_tag_ne (l r : Literal) (h : l.tag ≠ r.tag) :
    Interpreter.isEqual (Interpreter.literalToValue l)
      (Interpreter.literalToValue r) = none := by
  cases l <;> cases r <;> first
    | rfl
    | exact absurd rfl h

/-- C3, counterexample.  The claim says evaluating `==` on values of
different tags returns `Bool(false)` and is never a runtime error; on
`1 == "1"` the code instead reaches the `None` arm of `is_equal` and
produces the runtime error shown. -/
theorem crosstag_eq_counterexample :
    Interpreter.evaluate
        (.binary (.literal (.num 1)) ⟨.equalEqual, "==", none, 1⟩
          (.literal (.str "1"))) [[]]
      = ([[]], .error ("[line 1] Error: " ++ sq ++ "==" ++ sq
          ++ " operator must be applied on the same types."))
    ∧ (Interpreter.evaluate
        (.binary (.literal (.num 1)) ⟨.equalEqual, "==", none, 1⟩
          (.literal (.str "1"))) [[]]).2 ≠ .ok (Value.bool false) := by
  refine ⟨rfl, ?_⟩
  intro h
  rw [show (Interpreter.evaluate
      (.binary (.literal (.num 1)) ⟨.equalEqual, "==", none, 1⟩
        (.literal (.str "1"))) [[]]).2
      = .error ("[line 1] Error: " ++ sq ++ "==" ++ sq
          ++ " operator must be applied on the same types.") from rfl] at h
  exact Except.noConfusion h

/-- C3, amended.  For every pair of literals of different tags, every
line number and every environment, both `==` and `!=` evaluate to the
runtime error `[line N] Error: '==' (resp. '!=') operator must be
applied on the same types.`; cross-tag comparison never returns
`Bool(false)` / `Bool(true)`. -/
theorem crosstag_eq_runtime_error (l r : Literal) (line : Int) (env : Env)
    (h : l.tag ≠ r.tag) :
    Interpreter.evaluate
        (.binary (.literal l) ⟨.equalEqual, "==", none, line⟩ (.literal r)) env
      = (env, .error (Interpreter.generateError line
          (Interpreter.opMsg "==" " operator must be applied on the same types.")))
    ∧ Interpreter.evaluate
        (.binary (.literal l) ⟨.bangEqual, "!=", none, line⟩ (.literal r)) env
      = (env, .error (Interpreter.generateError line
          (Interpreter.opMsg "!=" " operator must be applied on the same types."))) := by
  have hne := isEqual_eq_none_of_tag_ne l r h
  constructor <;> simp [Interpreter.evaluate, hne]

/-- Witness for C3 at `nil == true` on line `0` in the global-only
chain. -/
theorem crosstag_eq_runtime_error_witness :
    Literal.nil.tag ≠ (Literal.bool true).tag
    ∧ (Interpreter.evaluate
        (.binary (.literal .nil) ⟨.equalEqual, "==", none, 0⟩
          (.literal (.bool true))) [[]]
      = ([[]], .error (Interpreter.generateError 0
          (Interpreter.opMsg "==" " operator must be applied on the same types.")))
    ∧ Interpreter.evaluate
        (.binary (.literal .nil) ⟨.bangEqual, "!=", none, 0⟩
          (.literal (.bool true))) [[]]
      = ([[]], .error (Interpreter.generateError 0
          (Interpreter.opMsg "!=" " operator must be applied on the same types.")))) :=
  ⟨by decide, crosstag_eq_runtime_error .nil (.bool true) 0 [[]] (by decide)⟩

/-- C5.  If the loop body finishes with the distinguished `break`
signal, the enclosing `While` converts it to a normal `Ok` exit; any
other runtime error from the body propagates out of the `While`
unchanged. -/
theorem while_break_normal_exit (fuel : Nat) (cond : Expr) (body : Stmt)
    (env env1 env2 : Env) (v : Value)
    (hc : Interpreter.evaluate cond env = (env1, .ok v))
    (ht : Interpreter.isTruthy v = true) :
    (Interpreter.execute fuel body env1 = some (env2, .error "break") →
      Interpreter.execute (fuel + 2) (.whileS cond body) env
        = some (env2, .ok ()))
    ∧ ∀ e, e ≠ "break" →
      Interpreter.execute fuel body env1 = some (env2, .error e) →
      Interpreter.execute (fuel + 2) (.whileS cond body) env
        = some (env2, .error e) := by
  constructor
  · intro hb
    simp [Interpreter.execute, Interpreter.whileLoop, hc, ht, hb]
  · intro e he hb
    simp [Interpreter.execute, Interpreter.whileLoop, hc, ht, hb, he]

/-- Witness for C5: `while (true) break;` exits normally, and a loop
body that reads an undefined variable propagates that runtime error. -/
theorem while_break_normal_exit_witness :
    Interpreter.evaluate (.literal (.bool true)) [[]]
        = ([[]], .ok (.bool true))
    ∧ Interpreter.isTruthy (.bool true) = true
    ∧ (Interpreter.execute 3 (.whileS (.literal (.bool true)) .brk) [[]]
        = some ([[]], .ok ()))
    ∧ (Interpreter.execute 3
        (.whileS (.literal (.bool true))
          (.expression (.variable ⟨.identifier, "x", some (.idr "x"), 0⟩))) [[]]
        = some ([[]], .error ("Variable " ++ sq ++ "x" ++ sq ++ " is undefined."))) := by
  refine ⟨rfl, rfl, ?_, ?_⟩
  · exact (while_break_normal_exit 1 (.literal (.bool true)) .brk
      [[]] [[]] [[]] (.bool true) rfl rfl).1 rfl
  · exact (while_break_normal_exit 1 (.literal (.bool true))
      (.expression (.variable ⟨.identifier, "x", some (.idr "x"), 0⟩))
      [[]] [[]] [[]] (.bool true) rfl rfl).2
      ("Variable " ++ sq ++ "x" ++ sq ++ " is undefined.") (by decide) rfl

/-- C7.  A `var` declaration without initializer executes to `Ok` and
leaves the chain exactly as it was (no binding is created), and
looking the name up where nothing defines it is the runtime error
`Variable '…' is undefined.` rather than `nil`. -/
theorem var_decl_without_initializer (fuel : Nat) (name : Token) (env : Env) :
    Interpreter.execute (fuel + 1) (.varDecl name none) env = some (env, .ok ())
    ∧ (Environment.get env name.lexeme = none →
        Interpreter.evaluate (.variable name) env
          = (env, .error ("Variable " ++ sq ++ name.lexeme ++ sq
              ++ " is undefined."))) := by
  constructor
  · rfl
  · intro h
    simp [Interpreter.evaluate, h]

/-- Witness for C7 at the name `x` and a chain of one empty global
scope. -/
theorem var_decl_without_initializer_witness :
    Interpreter.execute 1
        (.varDecl ⟨.identifier, "x", some (.idr "x"), 0⟩ none) [[]]
      = some ([[]], .ok ())
    ∧ Interpreter.evaluate (.variable ⟨.identifier, "x", some (.idr "x"), 0⟩) [[]]
      = ([[]], .error ("Variable " ++ sq ++ "x" ++ sq ++ " is undefined.")) :=
  ⟨(var_decl_without_initializer 0 ⟨.identifier, "x", some (.idr "x"), 0⟩ [[]]).1,
   (var_decl_without_initializer 0 ⟨.identifier, "x", some (.idr "x"), 0⟩ [[]]).2 rfl⟩

/-- Statement execution preserves everything but the innermost scope:
if the chain is `c :: ρ` before, it is `c2 :: ρ` after (for some
possibly different innermost scope `c2`), the block loop additionally
pops down to exactly `ρ`, and the while loop preserves the tail as
well.  The three parts are proved by one induction on fuel. -/
theorem exec_tail_preserved : ∀ fuel : Nat,
    (∀ (stmt : Stmt) (c : Scope) (ρ : Env) (res : Env × Except String Unit),
      Interpreter.execute fuel stmt (c :: ρ) = some res → ∃ c2, res.1 = c2 :: ρ)
    ∧ (∀ (stmts : List Stmt) (d : Scope) (ρ : Env) (res : Env × Except String Unit),
      Interpreter.blockLoop fuel stmts (d :: ρ) = some res → res.1 = ρ)
    ∧ (∀ (cond : Expr) (body : Stmt) (c : Scope) (ρ : Env)
        (res : Env × Except String Unit),
      Interpreter.whileLoop fuel cond body (c :: ρ) = some res →
        ∃ c2, res.1 = c2 :: ρ) := by
  intro fuel
  induction fuel with
  | zero =>
    refine ⟨?_, ?_, ?_⟩
    · intro stmt c ρ res h
      simp [Interpreter.execute] at h
    · intro stmts d ρ res h
      cases stmts with
      | nil =>
        simp only [Interpreter.blockLoop, Option.some.injEq] at h
        cases h
        rfl
      | cons s ss => simp [Interpreter.blockLoop] at h
    · intro cond body c ρ res h
      simp [Interpreter.whileLoop] at h
  | succ fuel ih =>
    obtain ⟨ihE, ihB, ihW⟩ := ih
    refine ⟨?_, ?_, ?_⟩
    · intro stmt c ρ res h
      cases stmt with
      | expression e =>
        rcases heva : Interpreter.evaluate e (c :: ρ) with ⟨env1, r⟩
        have hp : env1 = c :: ρ := by
          have := evaluate_env_eq e (c :: ρ); rw [heva] at this; exact this
        subst hp
        simp only [Interpreter.execute, heva] at h
        cases r with
        | ok u =>
          simp only [Option.some.injEq] at h
          cases h; exact ⟨c, rfl⟩
        | error m =>
          simp only [Option.some.injEq] at h
          cases h; exact ⟨c, rfl⟩
      | print e =>
        rcases heva : Interpreter.evaluate e (c :: ρ) with ⟨env1, r⟩
        have hp : env1 = c :: ρ := by
          have := evaluate_env_eq e (c :: ρ); rw [heva] at this; exact this
        subst hp
        simp only [Interpreter.execute, heva] at h
        cases r with
        | ok u =>
          simp only [Option.some.injEq] at h
          cases h; exact ⟨c, rfl⟩
        | error m =>
          simp only [Option.some.injEq] at h
          cases h; exact ⟨c, rfl⟩
      | varDecl name init =>
        cases init with
        | none =>
          simp only [Interpreter.execute, Option.some.injEq] at h
          cases h; exact ⟨c, rfl⟩
        | some e =>
          rcases heva : Interpreter.evaluate e (c :: ρ) with ⟨env1, r⟩
          have hp : env1 = c :: ρ := by
            have := evaluate_env_eq e (c :: ρ); rw [heva] at this; exact this
          subst hp
          simp only [Interpreter.execute, heva] at h
          cases r with
          | ok v =>
            simp only [Option.some.injEq] at h
            cases h
            exact ⟨c.insertVal name.lexeme v, rfl⟩
          | error m =>
            simp only [Option.some.injEq] at h
            cases h; exact ⟨c, rfl⟩
      | block stmts =>
        simp only [Interpreter.execute] at h
        exact ⟨c, ihB stmts [] (c :: ρ) res h⟩
      | ifS cond thenB elseB =>
        rcases heva : Interpreter.evaluate cond (c :: ρ) with ⟨env1, r⟩
        have hp : env1 = c :: ρ := by
          have := evaluate_env_eq cond (c :: ρ); rw [heva] at this; exact this
        subst hp
        simp only [Interpreter.execute, heva] at h
        cases r with
        | error m =>
          simp only [Option.some.injEq] at h
          cases h; exact ⟨c, rfl⟩
        | ok v =>
          by_cases htr : Interpreter.isTruthy v = true
          · simp only [htr, if_true] at h
            exact ihE thenB c ρ res h
          · simp only [eq_false_of_ne_true htr, if_false] at h
            cases elseB with
            | some st =>
              simp only [Option.isSome_some, if_true] at h
              exact ihE st c ρ res h
            | none =>
              simp only [Option.isSome_none, Bool.false_eq_true, if_false,
                Option.some.injEq] at h
              cases h; exact ⟨c, rfl⟩
      | whileS cond body =>
        simp only [Interpreter.execute] at h
        exact ihW cond body c ρ res h
      | brk =>
        simp only [Interpreter.execute, Option.some.injEq] at h
        cases h; exact ⟨c, rfl⟩
    · intro stmts d ρ res h
      cases stmts with
      | nil =>
        simp only [Interpreter.blockLoop, Option.some.injEq] at h
        cases h
        rfl
      | cons s ss =>
        simp only [Interpreter.blockLoop] at h
        rcases hex : Interpreter.execute fuel s (d :: ρ) with _ | ⟨env1, r⟩
        · rw [hex] at h; simp at h
        · rw [hex] at h
          obtain ⟨d2, hd⟩ := ihE s d ρ (env1, r) hex
          have hd2 : env1 = d2 :: ρ := hd
          subst hd2
          cases r with
          | ok u => exact ihB ss d2 ρ res h
          | error e =>
            simp only [Option.some.injEq] at h
            cases h; rfl
    · intro cond body c ρ res h
      simp only [Interpreter.whileLoop] at h
      rcases heva : Interpreter.evaluate cond (c :: ρ) with ⟨env1, r⟩
      have hp : env1 = c :: ρ := by
        have := evaluate_env_eq cond (c :: ρ); rw [heva] at this; exact this
      subst hp
      rw [heva] at h
      cases r with
      | error e =>
        simp only [Option.some.injEq] at h
        cases h; exact ⟨c, rfl⟩
      | ok v =>
        by_cases htr : Interpreter.isTruthy v = true
        · simp only [htr, if_true] at h
          rcases hex : Interpreter.execute fuel body (c :: ρ) with _ | ⟨env2, r2⟩
          · rw [hex] at h; simp at h
          · rw [hex] at h
            obtain ⟨c2, hc⟩ := ihE body c ρ (env2, r2) hex
            have hc2 : env2 = c2 :: ρ := hc
            subst hc2
            cases r2 with
            | ok u => exact ihW cond body c2 ρ res h
            | error e =>
              dsimp only at h
              by_cases hbr : e = "break"
              · rw [if_pos hbr] at h
                simp only [Option.some.injEq] at h
                cases h; exact ⟨c2, rfl⟩
              · rw [if_neg hbr] at h
                simp only [Option.some.injEq] at h
                cases h; exact ⟨c2, rfl⟩
        · simp only [eq_false_of_ne_true htr, if_false, Option.some.injEq] at h
          cases h; exact ⟨c, rfl⟩

/-- C8.  Executing a `Block` pushes a fresh scope whose enclosing is
the current chain and runs the statements of the block in it (first
conjunct, the definition of the arm), and on every exit path — normal
completion, a runtime error, or the `break` signal — the resulting
chain is exactly the chain from before the block (second conjunct). -/
theorem block_restores_environment (fuel : Nat) (stmts : List Stmt) (env : Env) :
    Interpreter.execute (fuel + 1) (.block stmts) env
      = Interpreter.blockLoop fuel stmts ([] :: env)
    ∧ ∀ res, Interpreter.execute (fuel + 1) (.block stmts) env = some res →
        res.1 = env := by
  constructor
  · rfl
  · intro res h
    simp only [Interpreter.execute] at h
    exact (exec_tail_preserved fuel).2.1 stmts [] env res h

/-- Witness for C8: a block that defines a variable and then breaks
(an abnormal exit) still restores the one-scope chain it started
from. -/
theorem block_restores_environment_witness :
    Interpreter.execute 4
        (.block [.varDecl ⟨.identifier, "x", some (.idr "x"), 0⟩
          (some (.literal (.num 3))), .brk]) [[("y", Value.num 7)]]
      = some ([[("y", Value.num 7)]], .error "break")
    ∧ (([[("y", Value.num 7)]], (Except.error "break" : Except String Unit)) :
        Env × Except String Unit).1 = [[("y", Value.num 7)]] :=
  ⟨rfl,
   (block_restores_environment 3
      [.varDecl ⟨.identifier, "x", some (.idr "x"), 0⟩
        (some (.literal (.num 3))), .brk] [[("y", Value.num 7)]]).2
      ([[("y", Value.num 7)]], .error "break") rfl⟩

/-- Call-free expressions: the fragment actually declared by
`syntax.rs` (whose `Expr` enum has no `Call` constructor, which is why
the Rust `match` in `evaluate` is exhaustive without a call arm). -/
def Expr.noCall : Expr → Prop
  | .assign _ value => value.noCall
  | .binary left _ right => left.noCall ∧ right.noCall
  | .call _ _ _ => False
  | .grouping inner => inner.noCall
  | .literal _ => True
  | .logical left _ right => left.noCall ∧ right.noCall
  | .unary _ right => right.noCall
  | .variable _ => True

/-- Anything `generate_error` builds starts with the prefix
`[line `. -/
theorem genError_shape (line : Int) (m msg : String)
    (h : Interpreter.generateError line m = msg) :
    ∃ r, msg = "[line " ++ r := by
  subst h
  exact ⟨toString line ++ ("] Error: " ++ m),
    by simp [Interpreter.generateError, String.append_assoc]⟩

/-- The only error `assign` can produce starts with `Variable `. -/
theorem assign_error_shape : ∀ (env : Env) (n : String) (v : Value) (msg : String),
    (Environment.assign env n v).2 = .error msg → ∃ r, msg = "Variable " ++ r := by
  intro env n v
  induction env with
  | nil =>
    intro msg h
    refine ⟨sq ++ (n ++ (sq ++ " does not exist.")), ?_⟩
    rw [← Except.error.inj h]
    simp [String.append_assoc]
  | cons s rest ih =>
    intro msg h
    by_cases hc : s.containsKey n
    · simp [Environment.assign, hc] at h
    · simp only [Environment.assign, hc, Bool.false_eq_true, if_false] at h
      exact ih msg h

/-- A string starting with `[line ` or `Variable ` is not the
five-character string `break`. -/
theorem msg_shape_ne_break (msg : String)
    (h : (∃ r, msg = "[line " ++ r) ∨ (∃ r, msg = "Variable " ++ r)) :
    msg ≠ "break" := by
  have hb : ("break" : String).length = 5 := rfl
  rcases h with ⟨r, rfl⟩ | ⟨r, rfl⟩ <;> intro hmsg <;>
    have hlen := congrArg String.length hmsg
  · rw [String.length_append, hb] at hlen
    rw [show ("[line " : String).length = 6 from rfl] at hlen
    omega
  · rw [String.length_append, hb] at hlen
    rw [show ("Variable " : String).length = 9 from rfl] at hlen
    omega

/-- Every error string produced by expression evaluation (over the
call-free fragment `syntax.rs` declares) starts with `[line ` (the
`generate_error` format) or with `Variable ` (the undefined-variable
and assign-failure messages). -/
theorem evaluate_error_shape : ∀ (e : Expr) (env : Env) (msg : String),
    Expr.noCall e → (Interpreter.evaluate e env).2 = .error msg →
    (∃ r, msg = "[line " ++ r) ∨ (∃ r, msg = "Variable " ++ r)
  | .literal v, env, msg, _, h => by simp [Interpreter.evaluate] at h
  | .grouping inner, env, msg, hnc, h => evaluate_error_shape inner env msg hnc h
  | .variable name, env, msg, _, h => by
    simp only [Interpreter.evaluate] at h
    split at h
    · exact Except.noConfusion h
    · refine Or.inr ⟨sq ++ (name.lexeme ++ (sq ++ " is undefined.")), ?_⟩
      rw [← Except.error.inj h]
      simp [String.append_assoc]
  | .assign name value, env, msg, hnc, h => by
    rcases heva : Interpreter.evaluate value env with ⟨env1, rl⟩
    simp only [Interpreter.evaluate, heva] at h
    cases rl with
    | error e2 =>
      exact evaluate_error_shape value env msg hnc (by rw [heva]; exact h)
    | ok v =>
      exact Or.inr (assign_error_shape env1 name.lexeme v msg h)
  | .logical left operator right, env, msg, hnc, h => by
    rcases heva : Interpreter.evaluate left env with ⟨env1, rl⟩
    cases rl with
    | error e2 =>
      refine evaluate_error_shape left env msg hnc.1 ?_
      rw [heva]
      simp only [Interpreter.evaluate, heva] at h
      exact h
    | ok l =>
      simp only [Interpreter.evaluate, heva] at h
      split at h <;> split at h <;>
        first
          | exact Except.noConfusion h
          | exact evaluate_error_shape right env1 msg hnc.2 h
  | .unary operator right, env, msg, hnc, h => by
    rcases heva : Interpreter.evaluate right env with ⟨env1, rr⟩
    cases rr with
    | error e2 =>
      refine evaluate_error_shape right env msg hnc ?_
      rw [heva]
      simp only [Interpreter.evaluate, heva] at h
      exact h
    | ok r =>
      simp only [Interpreter.evaluate, heva] at h
      split at h
      all_goals try split at h
      all_goals
        first
          | exact Except.noConfusion h
          | exact Or.inl (genError_shape _ _ _ (Except.error.inj h))
  | .binary left operator right, env, msg, hnc, h => by
    rcases heva : Interpreter.evaluate left env with ⟨env1, rl⟩
    cases rl with
    | error e2 =>
      refine evaluate_error_shape left env msg hnc.1 ?_
      rw [heva]
      simp only [Interpreter.evaluate, heva] at h
      exact h
    | ok l =>
      simp only [Interpreter.evaluate, heva] at h
      rcases hevb : Interpreter.evaluate right env1 with ⟨env2, rr⟩
      cases rr with
      | error e2 =>
        refine evaluate_error_shape right env1 msg hnc.2 ?_
        rw [hevb]
        simp only [hevb] at h
        exact h
      | ok r =>
        simp only [hevb] at h
        split at h
        all_goals try split at h
        all_goals try split at h
        all_goals
          first
            | exact Except.noConfusion h
            | exact Or.inl (genError_shape _ _ _ (Except.error.inj h))
  | .call callee paren arguments, env, msg, hnc, h => hnc.elim

/-- C9.  Over the call-free expression fragment of `syntax.rs`, every
error string evaluation can produce starts with `[line ` or with
`Variable `, and in particular is never the bare string `break`: the
string comparison in the `While` arm cannot mistake an
expression-level runtime error for the break signal. -/
theorem evaluate_error_never_break (e : Expr) (env : Env) (msg : String)
    (hnc : Expr.noCall e)
    (h : (Interpreter.evaluate e env).2 = .error msg) :
    ((∃ r, msg = "[line " ++ r) ∨ (∃ r, msg = "Variable " ++ r))
    ∧ msg ≠ "break" :=
  ⟨evaluate_error_shape e env msg hnc h,
   msg_shape_ne_break msg (evaluate_error_shape e env msg hnc h)⟩

/-- Witness for C9 at the expression `x` in an empty global scope. -/
theorem evaluate_error_never_break_witness :
    Expr.noCall (.variable ⟨.identifier, "x", some (.idr "x"), 0⟩)
    ∧ (Interpreter.evaluate
        (.variable ⟨.identifier, "x", some (.idr "x"), 0⟩) [[]]).2
      = .error ("Variable " ++ sq ++ "x" ++ sq ++ " is undefined.")
    ∧ ((∃ r, ("Variable " ++ sq ++ "x" ++ sq ++ " is undefined.") = "[line " ++ r)
        ∨ (∃ r, ("Variable " ++ sq ++ "x" ++ sq ++ " is undefined.")
            = "Variable " ++ r))
    ∧ ("Variable " ++ sq ++ "x" ++ sq ++ " is undefined.") ≠ "break" :=
  ⟨trivial, rfl,
   (evaluate_error_never_break (.variable ⟨.identifier, "x", some (.idr "x"), 0⟩)
     [[]] ("Variable " ++ sq ++ "x" ++ sq ++ " is undefined.") trivial rfl).1,
   (evaluate_error_never_break (.variable ⟨.identifier, "x", some (.idr "x"), 0⟩)
     [[]] ("Variable " ++ sq ++ "x" ++ sq ++ " is undefined.") trivial rfl).2⟩

/-! ## Parser (`parser.rs`), expression chain

Only the expression grammar (`expression` down to `primary`, including
`call`/`finish_call`) is embedded; it is what claim C4 is about.  The
parser state is the fixed token list plus the `current` index; every
function returns the parsed node and the new index.  Out-of-bounds
indexing (a panic in Rust, unreachable on `EOF`-terminated input) is
modelled with a default `EOF` token. -/

namespace Parser

/-- Default token for out-of-bounds access (unreachable on the
`EOF`-terminated token lists the scanner produces). -/
def eofDefault : Token := ⟨.eof, "", none, 0⟩

/-- `Parser::peek`. -/
def peekTok (tokens : List Token) (i : Nat) : Token :=
  tokens.getD i eofDefault

/-- `Parser::is_at_end`. -/
def isAtEndP (tokens : List Token) (i : Nat) : Bool :=
  (peekTok tokens i).tokenType = .eof

/-- `Parser::check`. -/
def check (tokens : List Token) (tt : TokenType) (i : Nat) : Bool :=
  if isAtEndP tokens i then false else (peekTok tokens i).tokenType = tt

/-- `Parser::advance` (only the index move; the returned token is
`previous` of the new index). -/
def advanceIdx (tokens : List Token) (i : Nat) : Nat :=
  if ¬ isAtEndP tokens i then i + 1 else i

/-- `Parser::previous`. -/
def previous (tokens : List Token) (i : Nat) : Token :=
  tokens.getD (i - 1) eofDefault

/-- `Parser::match_tokens`: try each kind; on the first `check` hit,
advance and report success. -/
def matchTokens (tokens : List Token) (tts : List TokenType) (i : Nat) :
    Bool × Nat :=
  if tts.any (fun tt => check tokens tt i) then (true, advanceIdx tokens i)
  else (false, i)

/-- `Parser::consume`. -/
def consume (tokens : List Token) (tt : TokenType) (i : Nat) :
    Option Token × Nat :=
  if check tokens tt i then (some (peekTok tokens i), advanceIdx tokens i)
  else (none, i)

/-- `Parser::generate_error`: line of `previous()` at the current
index. -/
def genErrorP (tokens : List Token) (i : Nat) (message : String) : String :=
  "[line " ++ toString (previous tokens i).line ++ "] Error: " ++ message

mutual

/-- `Parser::expression`. -/
def expressionP (tokens : List Token) : Nat → Nat → Option (Except String (Expr × Nat))
  | 0, _ => none
  | fuel + 1, i => assignmentP tokens fuel i
  termination_by structural fuel _ => fuel


/-- `Parser::assignment` (right-associative; validates the target). -/
def assignmentP (tokens : List Token) : Nat → Nat → Option (Except String (Expr × Nat))
  | 0, _ => none
  | fuel + 1, i =>
    match orP tokens fuel i with
    | none => none
    | some (.error e) => some (.error e)
    | some (.ok (expr, i1)) =>
      let m := matchTokens tokens [.equal] i1
      if m.1 then
        match assignmentP tokens fuel m.2 with
        | none => none
        | some (.error e) => some (.error e)
        | some (.ok (value, i2)) =>
          match expr with
          | .variable name => some (.ok (.assign name value, i2))
          | _ => some (.error (genErrorP tokens i2 "Invalid assignment target."))
      else some (.ok (expr, i1))
  termination_by structural fuel _ => fuel


/-- `Parser::or`. -/
def orP (tokens : List Token) : Nat → Nat → Option (Except String (Expr × Nat))
  | 0, _ => none
  | fuel + 1, i =>
    match andP tokens fuel i with
    | none => none
    | some (.error e) => some (.error e)
    | some (.ok (expr, i1)) => orLoop tokens fuel expr i1
  termination_by structural fuel _ => fuel


/-- The `while match_tokens([Or])` fold of `Parser::or`. -/
def orLoop (tokens : List Token) : Nat → Expr → Nat → Option (Except String (Expr × Nat))
  | 0, _, _ => none
  | fuel + 1, expr, i =>
    let m := matchTokens tokens [.kwOr] i
    if m.1 then
      let operator := previous tokens m.2
      match andP tokens fuel m.2 with
      | none => none
      | some (.error e) => some (.error e)
      | some (.ok (right, i2)) => orLoop tokens fuel (.logical expr operator right) i2
    else some (.ok (expr, i))
  termination_by structural fuel _ _ => fuel


/-- `Parser::and` (note the Rust code recurses into `and` for the
right operand, as the spec remarks). -/
def andP (tokens : List Token) : Nat → Nat → Option (Except String (Expr × Nat))
  | 0, _ => none
  | fuel + 1, i =>
    match equalityP tokens fuel i with
    | none => none
    | some (.error e) => some (.error e)
    | some (.ok (expr, i1)) => andLoop tokens fuel expr i1
  termination_by structural fuel _ => fuel


/-- The `while match_tokens([And])` fold of `Parser::and`. -/
def andLoop (tokens : List Token) : Nat → Expr → Nat → Option (Except String (Expr × Nat))
  | 0, _, _ => none
  | fuel + 1, expr, i =>
    let m := matchTokens tokens [.kwAnd] i
    if m.1 then
      let operator := previous tokens m.2
      match andP tokens fuel m.2 with
      | none => none
      | some (.error e) => some (.error e)
      | some (.ok (right, i2)) => andLoop tokens fuel (.logical expr operator right) i2
    else some (.ok (expr, i))
  termination_by structural fuel _ _ => fuel


/-- `Parser::equality`. -/
def equalityP (tokens : List Token) : Nat → Nat → Option (Except String (Expr × Nat))
  | 0, _ => none
  | fuel + 1, i =>
    match comparisonP tokens fuel i with
    | none => none
    | some (.error e) => some (.error e)
    | some (.ok (expr, i1)) => equalityLoop tokens fuel expr i1
  termination_by structural fuel _ => fuel


/-- The `!=`/`==` fold of `Parser::equality`. -/
def equalityLoop (tokens : List Token) : Nat → Expr → Nat → Option (Except String (Expr × Nat))
  | 0, _, _ => none
  | fuel + 1, expr, i =>
    let m := matchTokens tokens [.bangEqual, .equalEqual] i
    if m.1 then
      let operator := previous tokens m.2
      match comparisonP tokens fuel m.2 with
      | none => none
      | some (.error e) => some (.error e)
      | some (.ok (right, i2)) => equalityLoop tokens fuel (.binary expr operator right) i2
    else some (.ok (expr, i))
  termination_by structural fuel _ _ => fuel


/-- `Parser::comparison`. -/
def comparisonP (tokens : List Token) : Nat → Nat → Option (Except String (Expr × Nat))
  | 0, _ => none
  | fuel + 1, i =>
    match termP tokens fuel i with
    | none => none
    | some (.error e) => some (.error e)
    | some (.ok (expr, i1)) => comparisonLoop tokens fuel expr i1
  termination_by structural fuel _ => fuel


/-- The ordering-operator fold of `Parser::comparison`. -/
def comparisonLoop (tokens : List Token) : Nat → Expr → Nat → Option (Except String (Expr × Nat))
  | 0, _, _ => none
  | fuel + 1, expr, i =>
    let m := matchTokens tokens [.greater, .greaterEqual, .less, .lessEqual] i
    if m.1 then
      let operator := previous tokens m.2
      match termP tokens fuel m.2 with
      | none => none
      | some (.error e) => some (.error e)
      | some (.ok (right, i2)) => comparisonLoop tokens fuel (.binary expr operator right) i2
    else some (.ok (expr, i))
  termination_by structural fuel _ _ => fuel


/-- `Parser::term`. -/
def termP (tokens : List Token) : Nat → Nat → Option (Except String (Expr × Nat))
  | 0, _ => none
  | fuel + 1, i =>
    match factorP tokens fuel i with
    | none => none
    | some (.error e) => some (.error e)
    | some (.ok (expr, i1)) => termLoop tokens fuel expr i1
  termination_by structural fuel _ => fuel


/-- The `-`/`+` fold of `Parser::term`. -/
def termLoop (tokens : List Token) : Nat → Expr → Nat → Option (Except String (Expr × Nat))
  | 0, _, _ => none
  | fuel + 1, expr, i =>
    let m := matchTokens tokens [.minus, .plus] i
    if m.1 then
      let operator := previous tokens m.2
      match factorP tokens fuel m.2 with
      | none => none
      | some (.error e) => some (.error e)
      | some (.ok (right, i2)) => termLoop tokens fuel (.binary expr operator right) i2
    else some (.ok (expr, i))
  termination_by structural fuel _ _ => fuel


/-- `Parser::factor`. -/
def factorP (tokens : List Token) : Nat → Nat → Option (Except String (Expr × Nat))
  | 0, _ => none
  | fuel + 1, i =>
    match unaryP tokens fuel i with
    | none => none
    | some (.error e) => some (.error e)
    | some (.ok (expr, i1)) => factorLoop tokens fuel expr i1
  termination_by structural fuel _ => fuel


/-- The `/`/`*` fold of `Parser::factor`. -/
def factorLoop (tokens : List Token) : Nat → Expr → Nat → Option (Except String (Expr × Nat))
  | 0, _, _ => none
  | fuel + 1, expr, i =>
    let m := matchTokens tokens [.slash, .star] i
    if m.1 then
      let operator := previous tokens m.2
      match unaryP tokens fuel m.2 with
      | none => none
      | some (.error e) => some (.error e)
      | some (.ok (right, i2)) => factorLoop tokens fuel (.binary expr operator right) i2
    else some (.ok (expr, i))
  termination_by structural fuel _ _ => fuel


/-- `Parser::unary` (right-recursive). -/
def unaryP (tokens : List Token) : Nat → Nat → Option (Except String (Expr × Nat))
  | 0, _ => none
  | fuel + 1, i =>
    let m := matchTokens tokens [.bang, .minus] i
    if m.1 then
      let operator := previous tokens m.2
      match unaryP tokens fuel m.2 with
      | none => none
      | some (.error e) => some (.error e)
      | some (.ok (right, i2)) => some (.ok (.unary operator right, i2))
    else callP tokens fuel i
  termination_by structural fuel _ => fuel


/-- `Parser::call`. -/
def callP (tokens : List Token) : Nat → Nat → Option (Except String (Expr × Nat))
  | 0, _ => none
  | fuel + 1, i =>
    match primaryP tokens fuel i with
    | none => none
    | some (.error e) => some (.error e)
    | some (.ok (expr, i1)) => callLoop tokens fuel expr i1
  termination_by structural fuel _ => fuel


/-- The `loop` of `Parser::call`: keep finishing calls while a `(`
follows. -/
def callLoop (tokens : List Token) : Nat → Expr → Nat → Option (Except String (Expr × Nat))
  | 0, _, _ => none
  | fuel + 1, expr, i =>
    let m := matchTokens tokens [.leftParen] i
    if m.1 then
      match finishCall tokens fuel expr m.2 with
      | none => none
      | some (.error e) => some (.error e)
      | some (.ok (expr2, i2)) => callLoop tokens fuel expr2 i2
    else some (.ok (expr, i))
  termination_by structural fuel _ _ => fuel


/-- `Parser::finish_call`, verbatim: the 255-argument check is
performed once, before any argument has been parsed, on the freshly
created empty vector (so it can never fire), and the argument loop
BREAKS when a comma is matched. -/
def finishCall (tokens : List Token) : Nat → Expr → Nat → Option (Except String (Expr × Nat))
  | 0, _, _ => none
  | fuel + 1, callee, i =>
    let inner : Option (Except String (List Expr × Nat)) :=
      if ¬ check tokens .rightParen i then
        if 255 ≤ ([] : List Expr).length then
          some (.error ("Can" ++ sq ++ "t have more than 255 arguments."))
        else argsLoop tokens fuel [] i
      else some (.ok ([], i))
    match inner with
    | none => none
    | some (.error e) => some (.error e)
    | some (.ok (arguments, i1)) =>
      match consume tokens .rightParen i1 with
      | (some paren, i2) => some (.ok (.call callee paren arguments, i2))
      | (none, _) =>
        some (.error ("Expect " ++ sq ++ ")" ++ sq ++ " after arguments."))
  termination_by structural fuel _ _ => fuel


/-- The argument loop of `finish_call`: push one expression per
iteration and stop as soon as a comma IS matched. -/
def argsLoop (tokens : List Token) : Nat → List Expr → Nat → Option (Except String (List Expr × Nat))
  | 0, _, _ => none
  | fuel + 1, acc, i =>
    match expressionP tokens fuel i with
    | none => none
    | some (.error e) => some (.error e)
    | some (.ok (e, i1)) =>
      let acc1 := acc ++ [e]
      let m := matchTokens tokens [.comma] i1
      if m.1 then some (.ok (acc1, m.2)) else argsLoop tokens fuel acc1 i1
  termination_by structural fuel _ _ => fuel


/-- `Parser::primary`. -/
def primaryP (tokens : List Token) : Nat → Nat → Option (Except String (Expr × Nat))
  | 0, _ => none
  | fuel + 1, i =>
    let m := matchTokens tokens [.kwFalse] i
    if m.1 then some (.ok (.literal (.bool false), m.2))
    else
      let m := matchTokens tokens [.kwTrue] i
      if m.1 then some (.ok (.literal (.bool true), m.2))
      else
        let m := matchTokens tokens [.kwNil] i
        if m.1 then some (.ok (.literal .nil, m.2))
        else
          let m := matchTokens tokens [.number, .string] i
          if m.1 then
            match (previous tokens m.2).literal with
            | some lit => some (.ok (.literal lit, m.2))
            | none =>
              -- `previous().clone().literal.unwrap()` panics here in Rust;
              -- unreachable on scanner output, modelled as an error value.
              some (.error "panic: literal token without literal value")
          else
            let m := matchTokens tokens [.identifier] i
            if m.1 then some (.ok (.variable (previous tokens m.2), m.2))
            else
              let m := matchTokens tokens [.leftParen] i
              if m.1 then
                match expressionP tokens fuel m.2 with
                | none => none
                | some (.error e) => some (.error e)
                | some (.ok (expr, i1)) =>
                  match consume tokens .rightParen i1 with
                  | (some _, i2) => some (.ok (.grouping expr, i2))
                  | (none, _) =>
                    some (.error (genErrorP tokens i1
                      ("Expect " ++ sq ++ ")" ++ sq ++ " after expression.")))
              else some (.error (genErrorP tokens i "Primary token not found."))
  termination_by structural fuel _ => fuel

end

end Parser

/-- The token list of the call `f(a a … a, )` with 256 argument
identifiers: the argument loop of `finish_call` only stops when a
comma is matched, so all 256 expressions land in one argument
vector, and the closing parenthesis then consumes fine. -/
def c4Tokens : List Token :=
  [⟨.identifier, "f", some (.idr "f"), 0⟩, ⟨.leftParen, "(", none, 0⟩]
    ++ List.replicate 256 ⟨.identifier, "a", some (.idr "a"), 0⟩
    ++ [⟨.comma, ",", none, 0⟩, ⟨.rightParen, ")", none, 0⟩,
        ⟨.eof, "", none, 0⟩]

/-- Number of arguments of a parsed call expression. -/
def callArgCount : Expr → Option Nat
  | .call _ _ args => some args.length
  | _ => none

/-- Result of parsing `c4Tokens` as an expression: the argument count
of the resulting node when the parse succeeds with a call. -/
def c4Result : Option Nat :=
  match Parser.expressionP c4Tokens 10000 0 with
  | some (.ok (e, _)) => callArgCount e
  | _ => none

set_option maxRecDepth 1000000 in
/-- C4.  The claim says a call with more than 255 arguments is a parse
error `Can't have more than 255 arguments.`; the parser in fact
accepts the 256-argument call `f(a a … a, )` (the length check runs
once, before any argument is parsed, on an empty vector, and so can
never fire). -/
theorem call_with_256_args_parses : c4Result = some 256 := by
  rfl

/-! ## The line counter invariant (claim C6)

Every token is stamped with the scanner's `line` counter at emission
time, and that counter always equals the number of newline characters
in the consumed prefix of the source.  The ghost `emits` list lets the
theorem say exactly that about every emitted token. -/

/-- Number of newline characters in a character list. -/
def countNl (cs : List Char) : Nat := cs.count '\n'

/-- The scanner invariant: the running `line` counter equals the
number of newlines consumed so far, and every emitted token carries
the newline count of the prefix that was consumed when it was
emitted. -/
def ScanInv (source : List Char) (s : ScanState) : Prop :=
  s.line = (countNl (source.take s.current) : Int)
  ∧ List.Forall₂
      (fun (t : Token) (e : Nat) => t.line = (countNl (source.take e) : Int))
      s.tokens s.emits

theorem countNl_take_succ (src : List Char) (n : Nat) :
    countNl (src.take (n + 1))
      = countNl (src.take n) + (if src[n]? = some '\n' then 1 else 0) := by
  rw [countNl, countNl, List.take_succ, List.count_append]
  cases hg : src[n]? with
  | none => simp
  | some c =>
    by_cases hc : c = '\n' <;> simp [hc, List.count_cons]

theorem getD_eq_getElem?_getD (l : List Char) (n : Nat) (d : Char) :
    l.getD n d = (l[n]?).getD d := by
  rw [List.getD_eq_getD_get?, List.get?_eq_getElem?]

theorem getElem?_ne_nl_of_getD {src : List Char} {i : Nat} {c : Char}
    (h : src.getD i Scanner.nul = c) (hc : c ≠ '\n') : src[i]? ≠ some '\n' := by
  intro hcon
  apply hc
  rw [← h, getD_eq_getElem?_getD, hcon]
  rfl

theorem getElem?_eq_some_nl_of_getD {src : List Char} {i : Nat}
    (h : src.getD i Scanner.nul = '\n') : src[i]? = some '\n' := by
  cases hg : src[i]? with
  | none =>
    rw [getD_eq_getElem?_getD, hg] at h
    exact absurd h (by decide)
  | some c =>
    rw [getD_eq_getElem?_getD, hg] at h
    simp only [Option.getD_some] at h
    rw [h]

theorem lt_of_not_atEnd {src : List Char} {s : ScanState}
    (h : ¬ Scanner.isAtEnd src s = true) : s.current < src.length := by
  simp [Scanner.isAtEnd] at h
  omega

theorem peek_eq_getD_of_not_atEnd {src : List Char} {s : ScanState}
    (h : ¬ Scanner.isAtEnd src s = true) :
    Scanner.peek src s = src.getD s.current Scanner.nul := by
  simp [Scanner.peek, h]

theorem getElem?_ne_nl_of_peek {src : List Char} {s : ScanState}
    (h : Scanner.peek src s ≠ '\n') : src[s.current]? ≠ some '\n' := by
  by_cases ha : Scanner.isAtEnd src s = true
  · have hl : src.length ≤ s.current := by
      simp [Scanner.isAtEnd] at ha
      omega
    rw [List.getElem?_eq_none hl]
    simp
  · exact getElem?_ne_nl_of_getD (peek_eq_getD_of_not_atEnd ha).symm h

theorem inv_advance {src : List Char} {s : ScanState} (hI : ScanInv src s)
    (h : src[s.current]? ≠ some '\n') :
    ScanInv src { s with current := s.current + 1 } := by
  refine ⟨?_, hI.2⟩
  show s.line = (countNl (src.take (s.current + 1)) : Int)
  rw [countNl_take_succ, if_neg h]
  simpa using hI.1

theorem inv_advance_nl {src : List Char} {s : ScanState} (hI : ScanInv src s)
    (h : src[s.current]? = some '\n') :
    ScanInv src { s with current := s.current + 1, line := s.line + 1 } := by
  refine ⟨?_, hI.2⟩
  show s.line + 1 = (countNl (src.take (s.current + 1)) : Int)
  rw [countNl_take_succ, if_pos h]
  have := hI.1
  push_cast
  omega

theorem inv_addTokenLit {src : List Char} {s : ScanState}
    (tt : TokenType) (lit : Option Literal) (hI : ScanInv src s) :
    ScanInv src (Scanner.addTokenLit src tt lit s) := by
  refine ⟨hI.1, ?_⟩
  exact List.rel_append hI.2 (List.Forall₂.cons hI.1 List.Forall₂.nil)

theorem inv_reportError {src : List Char} {s : ScanState} (msg : String)
    (hI : ScanInv src s) : ScanInv src (Scanner.reportError msg s) :=
  ⟨hI.1, hI.2⟩

theorem inv_checkNext {src : List Char} {s : ScanState} {c : Char}
    (hc : c ≠ '\n') (hI : ScanInv src s) :
    ScanInv src (Scanner.checkNext src c s).2 := by
  unfold Scanner.checkNext
  split
  · exact hI
  · split
    · exact hI
    · next h1 h2 => exact inv_advance hI (getElem?_ne_nl_of_getD (not_not.mp h2) hc)

theorem inv_commentLoop (src : List Char) :
    ∀ (fuel : Nat) {s : ScanState}, ScanInv src s →
      ScanInv src (Scanner.commentLoop src fuel s)
  | 0, _, hI => hI
  | fuel + 1, s, hI => by
    rw [Scanner.commentLoop]
    split
    · next h =>
      exact inv_commentLoop src fuel (inv_advance hI (getElem?_ne_nl_of_peek h.1))
    · exact hI

theorem inv_digitRun (src : List Char) :
    ∀ (fuel : Nat) {s : ScanState}, ScanInv src s →
      ScanInv src (Scanner.digitRun src fuel s)
  | 0, _, hI => hI
  | fuel + 1, s, hI => by
    rw [Scanner.digitRun]
    split
    · next h =>
      refine inv_digitRun src fuel (inv_advance hI (getElem?_ne_nl_of_peek ?_))
      intro he
      rw [he] at h
      exact absurd h (by decide)
    · exact hI

theorem inv_alnumRun (src : List Char) :
    ∀ (fuel : Nat) {s : ScanState}, ScanInv src s →
      ScanInv src (Scanner.alnumRun src fuel s)
  | 0, _, hI => hI
  | fuel + 1, s, hI => by
    rw [Scanner.alnumRun]
    split
    · next h =>
      refine inv_alnumRun src fuel (inv_advance hI (getElem?_ne_nl_of_peek ?_))
      intro he
      rw [he] at h
      exact absurd h (by decide)
    · exact hI

theorem inv_stringBody (src : List Char) :
    ∀ (n : Nat) (s : ScanState), src.length - s.current ≤ n → ScanInv src s →
      ScanInv src (Scanner.stringBody src s)
  | 0, s, hn, hI => by
    rw [Scanner.stringBody]
    rw [dif_neg ?hcond]
    case hcond =>
      intro hcontra
      exact absurd (lt_of_not_atEnd hcontra.2) (by omega)
    exact hI
  | n + 1, s, hn, hI => by
    rw [Scanner.stringBody]
    split
    · next h =>
      have hlt : s.current < src.length := lt_of_not_atEnd h.2
      by_cases hnl : Scanner.peek src s = '\n'
      · rw [if_pos hnl]
        refine inv_stringBody src n _ ?_ ?_
        · simp only [Scanner.advance]
          omega
        · refine inv_advance_nl hI (getElem?_eq_some_nl_of_getD ?_)
          rw [← peek_eq_getD_of_not_atEnd h.2]
          exact hnl
      · rw [if_neg hnl]
        refine inv_stringBody src n _ ?_ ?_
        · simp only [Scanner.advance]
          omega
        · exact inv_advance hI (getElem?_ne_nl_of_peek hnl)
    · exact hI

theorem stringBody_exit (src : List Char) :
    ∀ (n : Nat) (s : ScanState), src.length - s.current ≤ n →
      Scanner.peek src (Scanner.stringBody src s) = '"'
      ∨ Scanner.isAtEnd src (Scanner.stringBody src s) = true
  | 0, s, hn => by
    rw [Scanner.stringBody]
    rw [dif_neg ?hcond]
    case hcond =>
      intro hcontra
      exact absurd (lt_of_not_atEnd hcontra.2) (by omega)
    right
    simp [Scanner.isAtEnd]
    omega
  | n + 1, s, hn => by
    rw [Scanner.stringBody]
    split
    · next h =>
      have hlt : s.current < src.length := lt_of_not_atEnd h.2
      split
      · refine stringBody_exit src n _ ?_
        simp only [Scanner.advance]
        omega
      · refine stringBody_exit src n _ ?_
        simp only [Scanner.advance]
        omega
    · next h =>
      rcases not_and_or.mp h with h1 | h2
      · exact Or.inl (not_not.mp h1)
      · exact Or.inr (not_not.mp h2)

theorem inv_scanString {src : List Char} {s : ScanState} (hI : ScanInv src s) :
    ScanInv src (Scanner.scanString src s) := by
  have hB : ScanInv src (Scanner.stringBody src s) :=
    inv_stringBody src (src.length - s.current) s (by omega) hI
  have hE := stringBody_exit src (src.length - s.current) s (by omega)
  unfold Scanner.scanString
  dsimp only
  split
  · exact inv_reportError _ hB
  · next hend =>
    rcases hE with hq | ha
    · refine inv_addTokenLit _ _ (inv_advance hB (getElem?_ne_nl_of_peek ?_))
      rw [hq]
      decide
    · exact absurd ha hend

theorem inv_scanNumber {src : List Char} (fuel : Nat) {s : ScanState}
    (hI : ScanInv src s) : ScanInv src (Scanner.scanNumber src fuel s) := by
  have h1 : ScanInv src (Scanner.digitRun src fuel s) := inv_digitRun src fuel hI
  unfold Scanner.scanNumber
  dsimp only
  split
  · next h =>
    refine inv_addTokenLit _ _ (inv_digitRun src fuel (inv_advance h1
      (getElem?_ne_nl_of_peek ?_)))
    rw [h.1]
    decide
  · exact inv_addTokenLit _ _ h1

theorem inv_scanIdentifier {src : List Char} (fuel : Nat) {s : ScanState}
    (hI : ScanInv src s) : ScanInv src (Scanner.scanIdentifier src fuel s) := by
  have h1 : ScanInv src (Scanner.alnumRun src fuel s) := inv_alnumRun src fuel hI
  unfold Scanner.scanIdentifier
  dsimp only
  split
  · exact inv_addTokenLit _ _ h1
  · exact inv_addTokenLit _ _ h1

theorem inv_scanTokenDispatch {src : List Char} (fuel : Nat) {s : ScanState}
    (hI : ScanInv src s) :
    ScanInv src (Scanner.scanTokenDispatch src fuel
      (src.getD s.current Scanner.nul) { s with current := s.current + 1 }) := by
  rw [Scanner.scanTokenDispatch.eq_def]
  by_cases h1 : src.getD s.current Scanner.nul = '('
  · rw [if_pos h1]
    exact inv_addTokenLit _ _ (inv_advance hI (getElem?_ne_nl_of_getD h1 (by decide)))
  · rw [if_neg h1]
    by_cases h2 : src.getD s.current Scanner.nul = ')'
    · rw [if_pos h2]
      exact inv_addTokenLit _ _ (inv_advance hI (getElem?_ne_nl_of_getD h2 (by decide)))
    · rw [if_neg h2]
      by_cases h3 : src.getD s.current Scanner.nul = '{'
      · rw [if_pos h3]
        exact inv_addTokenLit _ _ (inv_advance hI (getElem?_ne_nl_of_getD h3 (by decide)))
      · rw [if_neg h3]
        by_cases h4 : src.getD s.current Scanner.nul = '}'
        · rw [if_pos h4]
          exact inv_addTokenLit _ _ (inv_advance hI (getElem?_ne_nl_of_getD h4 (by decide)))
        · rw [if_neg h4]
          by_cases h5 : src.getD s.current Scanner.nul = ','
          · rw [if_pos h5]
            exact inv_addTokenLit _ _ (inv_advance hI (getElem?_ne_nl_of_getD h5 (by decide)))
          · rw [if_neg h5]
            by_cases h6 : src.getD s.current Scanner.nul = '.'
            · rw [if_pos h6]
              exact inv_addTokenLit _ _ (inv_advance hI (getElem?_ne_nl_of_getD h6 (by decide)))
            · rw [if_neg h6]
              by_cases h7 : src.getD s.current Scanner.nul = '-'
              · rw [if_pos h7]
                exact inv_addTokenLit _ _ (inv_advance hI (getElem?_ne_nl_of_getD h7 (by decide)))
              · rw [if_neg h7]
                by_cases h8 : src.getD s.current Scanner.nul = '+'
                · rw [if_pos h8]
                  exact inv_addTokenLit _ _ (inv_advance hI (getElem?_ne_nl_of_getD h8 (by decide)))
                · rw [if_neg h8]
                  by_cases h9 : src.getD s.current Scanner.nul = ';'
                  · rw [if_pos h9]
                    exact inv_addTokenLit _ _ (inv_advance hI (getElem?_ne_nl_of_getD h9 (by decide)))
                  · rw [if_neg h9]
                    by_cases h10 : src.getD s.current Scanner.nul = '*'
                    · rw [if_pos h10]
                      exact inv_addTokenLit _ _ (inv_advance hI (getElem?_ne_nl_of_getD h10 (by decide)))
                    · rw [if_neg h10]
                      by_cases h11 : src.getD s.current Scanner.nul = '!'
                      · rw [if_pos h11]
                        dsimp only
                        have hq11 := inv_checkNext (c := '=') (by decide)
                          (inv_advance hI (getElem?_ne_nl_of_getD h11 (by decide)))
                        by_cases hb11 : (Scanner.checkNext src '=' { s with current := s.current + 1 }).1 = true
                        · rw [if_pos hb11]
                          exact inv_addTokenLit _ _ hq11
                        · rw [if_neg hb11]
                          exact inv_addTokenLit _ _ hq11
                      · rw [if_neg h11]
                        by_cases h12 : src.getD s.current Scanner.nul = '='
                        · rw [if_pos h12]
                          dsimp only
                          have hq12 := inv_checkNext (c := '=') (by decide)
                            (inv_advance hI (getElem?_ne_nl_of_getD h12 (by decide)))
                          by_cases hb12 : (Scanner.checkNext src '=' { s with current := s.current + 1 }).1 = true
                          · rw [if_pos hb12]
                            exact inv_addTokenLit _ _ hq12
                          · rw [if_neg hb12]
                            exact inv_addTokenLit _ _ hq12
                        · rw [if_neg h12]
                          by_cases h13 : src.getD s.current Scanner.nul = '<'
                          · rw [if_pos h13]
                            dsimp only
                            have hq13 := inv_checkNext (c := '=') (by decide)
                              (inv_advance hI (getElem?_ne_nl_of_getD h13 (by decide)))
                            by_cases hb13 : (Scanner.checkNext src '=' { s with current := s.current + 1 }).1 = true
                            · rw [if_pos hb13]
                              exact inv_addTokenLit _ _ hq13
                            · rw [if_neg hb13]
                              exact inv_addTokenLit _ _ hq13
                          · rw [if_neg h13]
                            by_cases h14 : src.getD s.current Scanner.nul = '>'
                            · rw [if_pos h14]
                              dsimp only
                              have hq14 := inv_checkNext (c := '=') (by decide)
                                (inv_advance hI (getElem?_ne_nl_of_getD h14 (by decide)))
                              by_cases hb14 : (Scanner.checkNext src '=' { s with current := s.current + 1 }).1 = true
                              · rw [if_pos hb14]
                                exact inv_addTokenLit _ _ hq14
                              · rw [if_neg hb14]
                                exact inv_addTokenLit _ _ hq14
                            · rw [if_neg h14]
                              by_cases h15 : src.getD s.current Scanner.nul = '/'
                              · rw [if_pos h15]
                                dsimp only
                                have hq15 := inv_checkNext (c := '/') (by decide)
                                  (inv_advance hI (getElem?_ne_nl_of_getD h15 (by decide)))
                                by_cases hb15 : (Scanner.checkNext src '/' { s with current := s.current + 1 }).1 = true
                                · rw [if_pos hb15]
                                  exact inv_commentLoop src fuel hq15
                                · rw [if_neg hb15]
                                  exact inv_addTokenLit _ _ hq15
                              · rw [if_neg h15]
                                by_cases h16 : src.getD s.current Scanner.nul = ' '
                                    ∨ src.getD s.current Scanner.nul = '\r' ∨ src.getD s.current Scanner.nul = '\t'
                                · rw [if_pos h16]
                                  rcases h16 with h | h | h <;>
                                    exact inv_advance hI (getElem?_ne_nl_of_getD h (by decide))
                                · rw [if_neg h16]
                                  by_cases h17 : src.getD s.current Scanner.nul = '\n'
                                  · rw [if_pos h17]
                                    exact inv_advance_nl hI (getElem?_eq_some_nl_of_getD h17)
                                  · rw [if_neg h17]
                                    by_cases h18 : src.getD s.current Scanner.nul = '"'
                                    · rw [if_pos h18]
                                      exact inv_scanString (inv_advance hI (getElem?_ne_nl_of_getD h18 (by decide)))
                                    · rw [if_neg h18]
                                      by_cases h19 : (src.getD s.current Scanner.nul).isDigit = true
                                      · rw [if_pos h19]
                                        refine inv_scanNumber fuel (inv_advance hI (getElem?_ne_nl_of_getD rfl ?_))
                                        intro he
                                        rw [he] at h19
                                        exact absurd h19 (by decide)
                                      · rw [if_neg h19]
                                        by_cases h20 : (src.getD s.current Scanner.nul).isAlpha = true
                                            ∨ src.getD s.current Scanner.nul = '_'
                                        · rw [if_pos h20]
                                          refine inv_scanIdentifier fuel (inv_advance hI (getElem?_ne_nl_of_getD rfl ?_))
                                          rcases h20 with h | h
                                          · intro he
                                            rw [he] at h
                                            exact absurd h (by decide)
                                          · rw [h]
                                            decide
                                        · rw [if_neg h20]
                                          exact inv_reportError _ (inv_advance hI (getElem?_ne_nl_of_getD rfl h17))

theorem inv_scanToken {src : List Char} (fuel : Nat) {s : ScanState}
    (hI : ScanInv src s) : ScanInv src (Scanner.scanToken src fuel s) :=
  inv_scanTokenDispatch fuel hI

theorem inv_scanLoop (src : List Char) :
    ∀ (fuel : Nat) {s : ScanState}, ScanInv src s →
      ScanInv src (Scanner.scanLoop src fuel s)
  | 0, _, hI => hI
  | fuel + 1, s, hI => by
    rw [Scanner.scanLoop]
    split
    · exact hI
    · exact inv_scanLoop src fuel (inv_scanToken fuel ⟨hI.1, hI.2⟩)

/-- C6, amended.  For every source string, every scanned token's
`line` field equals the number of newline characters that had been
consumed when the token was emitted — i.e. `line` is the 0-indexed
line number of the position right after the token (a token on the
first line carries `line = 0`, and each consumed `\n` increments the
counter for subsequent tokens; a string literal spanning newlines is
stamped with the line of its closing quote, and the final `EOF` token
with the line after the last consumed character). -/
theorem token_line_eq_newline_count (str : String) :
    List.Forall₂
      (fun (t : Token) (e : Nat) => t.line = (countNl (str.data.take e) : Int))
      (Scanner.scanFinal str).tokens (Scanner.scanFinal str).emits := by
  have h0 : ScanInv str.data Scanner.initState := by
    constructor
    · rfl
    · exact List.Forall₂.nil
  have h1 := inv_scanLoop str.data (str.data.length + 1) h0
  have h2 := inv_addTokenLit .eof none h1
  exact h2.2

end LoxRust
